import Mathlib

/-!
# Verification of the fractal-explorer Mandelbrot renderer (src/lib.rs)

Shallow embedding of the core pipeline of `src/lib.rs`:

* `Viewport`                -- the `Viewport` struct (f64 fields become `ℚ`,
                               `u32` fields become `ℕ`);
* `map_pixel_to_complex`    -- the coordinate mapper;
* `calculate_mandelbrot`    -- the escape-time evaluator (the `for` loop is
                               fuel-structured recursion, fuel = remaining
                               iterations);
* `get_color`               -- the colorizer; `f64::powf(·, 0.5)` is the one
                               operation with no exact rational counterpart,
                               so it is passed in as an abstract function
                               argument `sqrt : ℚ → ℚ` (every IEEE-754 double
                               is a rational, so any concrete behaviour of
                               `powf` is an instance of this parameter);
* `render`                  -- the frame renderer: the nested
                               `for py / for px` loops become a left fold of
                               per-pixel buffer writes over the row-major
                               pixel list, starting from the zero-filled
                               buffer `vec![0u8; w*h*4]`;
* `RenderState` / `renderOp` / `zoom_at` -- the thread-local session state
                               (`VIEWPORT`, `CTX`) and the exported API
                               functions; the canvas context is modelled as
                               `Option Unit` (bound / not bound), and the
                               buffer an operation would deliver to the sink
                               is returned in an `Except`.

f64 arithmetic (`+`, `-`, `*`, `/` and comparisons) is modelled exactly over
`ℚ`; rounding error is outside the model.  The Rust `as u8` saturating cast
is `ratToU8` (clamp to 255, truncate; truncation toward zero coincides with
`Int.floor` on the nonnegative values that occur, and negative values floor
to a nonpositive integer whose `Int.toNat` is 0, matching saturation at 0).
-/

/-- The `Viewport` struct of `src/lib.rs` (lines 13-21): center point,
vertical range, pixel dimensions and iteration budget. -/
structure Viewport where
  center_x : ℚ
  center_y : ℚ
  range : ℚ
  width : ℕ
  height : ℕ
  max_iter : ℕ
deriving DecidableEq

/-- `map_pixel_to_complex` (lines 126-138): pixel coordinates plus viewport
to a complex-plane point.  `0.5` is the exact rational `1/2`. -/
def map_pixel_to_complex (px py : ℚ) (vp : Viewport) : ℚ × ℚ :=
  let w : ℚ := vp.width
  let h : ℚ := vp.height
  let aspect := w / h
  let range_y := vp.range
  let range_x := vp.range * aspect
  let x := (px / w - 1/2) * range_x + vp.center_x
  let y := (1/2 - py / h) * range_y + vp.center_y
  (x, y)

/-- The loop body of `calculate_mandelbrot` (lines 143-153).  `fuel` is the
number of loop iterations still allowed (`max_iter - n`), `n` the current
iteration index; when the fuel runs out the loop falls through and the
function returns `max_iter`. -/
def mandelGo (re0 im0 : ℚ) (max_iter : ℕ) : ℕ → ℕ → ℚ → ℚ → ℕ
  | 0, _, _, _ => max_iter
  | fuel + 1, n, re, im =>
    let re2 := re * re
    let im2 := im * im
    if re2 + im2 > 4 then n
    else mandelGo re0 im0 max_iter fuel (n + 1) (re2 - im2 + re0) (2 * re * im + im0)

/-- `calculate_mandelbrot` (lines 140-155): escape-time iteration count for
the point `c = re0 + i·im0`, starting from `z = 0`. -/
def calculate_mandelbrot (re0 im0 : ℚ) (max_iter : ℕ) : ℕ :=
  mandelGo re0 im0 max_iter max_iter 0 0 0

/-- The Rust `as u8` cast applied to the color channels (lines 164-166):
saturating conversion of a float to an 8-bit unsigned integer (values below
0 go to 0, values above 255 go to 255, everything else is truncated toward
zero; on nonnegative inputs truncation toward zero is `Int.floor`). -/
def ratToU8 (q : ℚ) : ℕ := min 255 (Int.toNat ⌊q⌋)

/-- The red channel polynomial `9.0 * (1.0 - t) * t * t * t * 255.0`
(line 164). -/
def chanR (t : ℚ) : ℚ := 9 * (1 - t) * t * t * t * 255

/-- The green channel polynomial `15.0 * (1.0 - t) * (1.0 - t) * t * t *
255.0` (line 165). -/
def chanG (t : ℚ) : ℚ := 15 * (1 - t) * (1 - t) * t * t * 255

/-- The blue channel polynomial `8.5 * (1.0 - t) * (1.0 - t) * (1.0 - t) *
t * 255.0` (line 166). -/
def chanB (t : ℚ) : ℚ := 8.5 * (1 - t) * (1 - t) * (1 - t) * t * 255

/-- `get_color` (lines 157-169).  `sqrt` abstracts
`f64::powf(iter as f64 / max_iter as f64, 0.5)`: the model takes the value
that call would return as a function of its (rational) argument. -/
def get_color (sqrt : ℚ → ℚ) (iter max_iter : ℕ) : ℕ × ℕ × ℕ :=
  if iter = max_iter then (0, 0, 0)
  else
    let t := sqrt ((iter : ℚ) / (max_iter : ℚ))
    (ratToU8 (chanR t), ratToU8 (chanG t), ratToU8 (chanB t))

/-- The pixels visited by the nested loops of `render` (lines 77-78):
`for py in 0..height { for px in 0..width { ... } }`, row-major,
top-to-bottom then left-to-right. -/
def pixelList (w h : ℕ) : List (ℕ × ℕ) :=
  (List.range h).flatMap fun py => (List.range w).map fun px => (px, py)

/-- Byte offset of pixel `(px, py)`: `let idx = (py * width + px) * 4`
(line 83). -/
def pixelOffset (w px py : ℕ) : ℕ := (py * w + px) * 4

/-- The body of the inner loop of `render` (lines 79-87): map the pixel,
iterate, color, and store the four bytes `r, g, b, 255` at `idx .. idx+3`. -/
def writePixel (sqrt : ℚ → ℚ) (vp : Viewport) (data : List ℕ) (px py : ℕ) :
    List ℕ :=
  let c := map_pixel_to_complex (px : ℚ) (py : ℚ) vp
  let iter := calculate_mandelbrot c.1 c.2 vp.max_iter
  let rgb := get_color sqrt iter vp.max_iter
  let idx := pixelOffset vp.width px py
  ((((data.set idx rgb.1).set (idx + 1) rgb.2.1).set (idx + 2) rgb.2.2).set
    (idx + 3) 255)

/-- `render`, buffer-production part (lines 69-89): start from
`vec![0u8; width * height * 4]` and execute the nested pixel loops (a fold
of `writePixel` over the row-major pixel list). -/
def render (sqrt : ℚ → ℚ) (vp : Viewport) : List ℕ :=
  (pixelList vp.width vp.height).foldl
    (fun data p => writePixel sqrt vp data p.1 p.2)
    (List.replicate (vp.width * vp.height * 4) 0)

/-- The thread-local session state (lines 23-33): the current `Viewport`
plus the canvas context `CTX : Option CanvasRenderingContext2d`, modelled
as bound (`some ()`) or not bound (`none`). -/
structure RenderState where
  viewport : Viewport
  ctx : Option Unit
deriving DecidableEq

/-- `get_state_and_ctx` (lines 115-124): read the viewport and the context,
failing with `"context not initialized"` when no context is bound. -/
def get_state_and_ctx (s : RenderState) : Except String (Viewport × Unit) :=
  match s.ctx with
  | none => Except.error "context not initialized"
  | some c => Except.ok (s.viewport, c)

/-- The exported `render` entry point (lines 69-100): fetch state and
context first (propagating its error before any buffer work), then compute
the frame and deliver it to the sink.  The value delivered to the sink is
returned. -/
def renderOp (sqrt : ℚ → ℚ) (s : RenderState) : Except String (List ℕ) :=
  match get_state_and_ctx s with
  | Except.error e => Except.error e
  | Except.ok (vp, _) => Except.ok (render sqrt vp)

/-- The exported `zoom_at` (lines 102-113): map the clicked pixel through
the *current* viewport, make it the new center, divide `range` by
`zoom_factor`, then call `render`.  Returns the post-call state together
with the render outcome. -/
def zoom_at (sqrt : ℚ → ℚ) (x y zoom_factor : ℚ) (s : RenderState) :
    RenderState × Except String (List ℕ) :=
  let vp := s.viewport
  let c := map_pixel_to_complex x y vp
  let vp' := { vp with center_x := c.1, center_y := c.2,
                       range := vp.range / zoom_factor }
  let s' := { s with viewport := vp' }
  (s', renderOp sqrt s')

/-! ## Helper lemmas for the escape-time evaluator -/

/-- The loop index never exceeds the budget: with the loop invariant
`n + fuel = max_iter`, the result of `mandelGo` is at most `max_iter`. -/
lemma mandelGo_le (re0 im0 : ℚ) (max_iter : ℕ) :
    ∀ fuel n re im, n + fuel = max_iter →
      mandelGo re0 im0 max_iter fuel n re im ≤ max_iter := by
  intro fuel
  induction fuel with
  | zero => intro n re im _; simp [mandelGo]
  | succ fuel ih =>
    intro n re im hinv
    rw [mandelGo]
    split
    · omega
    · exact ih (n + 1) _ _ (by omega)

/-- The orbit of `c = 0` is constantly `0`, so the loop always runs to
completion. -/
lemma mandelGo_zero (max_iter : ℕ) :
    ∀ fuel n, mandelGo 0 0 max_iter fuel n 0 0 = max_iter := by
  intro fuel
  induction fuel with
  | zero => intro n; rfl
  | succ fuel ih =>
    intro n
    rw [mandelGo]
    norm_num
    exact ih (n + 1)

/-! ## C2, C3, C4 -/

/-- C2: `calculate_mandelbrot` is a pure function of its inputs (two calls
with identical inputs agree) and its result always lies in `[0, max_iter]`
(the lower bound is inherent to `ℕ`). -/
theorem calculate_mandelbrot_pure_and_bounded
    (re0 im0 re1 im1 : ℚ) (m0 m1 : ℕ)
    (h1 : re0 = re1) (h2 : im0 = im1) (h3 : m0 = m1) :
    calculate_mandelbrot re0 im0 m0 = calculate_mandelbrot re1 im1 m1 ∧
      calculate_mandelbrot re0 im0 m0 ≤ m0 := by
  subst h1; subst h2; subst h3
  exact ⟨rfl, mandelGo_le re0 im0 m0 m0 0 0 0 (by omega)⟩

/-- Witness for C2 at the concrete input `(2, 2, 1)`. -/
theorem calculate_mandelbrot_pure_and_bounded_witness :
    calculate_mandelbrot 2 2 1 = calculate_mandelbrot 2 2 1 ∧
      calculate_mandelbrot 2 2 1 ≤ 1 :=
  calculate_mandelbrot_pure_and_bounded 2 2 2 2 1 1 rfl rfl rfl

/-- C3: for the canonical in-set point `c = 0`, the squared magnitude stays
at `0` and never exceeds `4`, so the evaluator returns exactly `max_iter`,
for every `max_iter`. -/
theorem calculate_mandelbrot_zero (max_iter : ℕ) :
    calculate_mandelbrot 0 0 max_iter = max_iter :=
  mandelGo_zero max_iter max_iter 0

/-- Concrete evaluation: with budget `1`, the point `(2, 2)` survives the
single check (which sees `z = 0`) and the loop returns `max_iter = 1`. -/
lemma mandel_two_two_one : calculate_mandelbrot 2 2 1 = 1 := by
  show mandelGo 2 2 1 1 0 0 0 = 1
  rw [mandelGo]
  norm_num
  rw [mandelGo]

/-- C4 counterexample: at the concrete input `re0 = im0 = 2`,
`max_iter = 1`, the evaluator returns `1`, not `0`: the first escape check
sees the initial `z = 0` (squared magnitude `0`, not `8`), so the claimed
escape at iteration `0` does not happen. -/
theorem calculate_mandelbrot_two_two_ne_zero :
    calculate_mandelbrot 2 2 1 ≠ 0 := by
  rw [mandel_two_two_one]
  omega

/-- C4 amended: for every `max_iter > 0`,
`calculate_mandelbrot 2 2 max_iter = 1`: the check at iteration `0` sees
`z = 0` and passes, the update produces `z = 2 + 2i`, and the point is
detected as escaped at iteration index `1` (when `max_iter = 1` the loop
instead exhausts its budget and returns `max_iter = 1` as well). -/
theorem calculate_mandelbrot_two_two (max_iter : ℕ) (h : 0 < max_iter) :
    calculate_mandelbrot 2 2 max_iter = 1 := by
  obtain ⟨k, rfl⟩ : ∃ k, max_iter = k + 1 := ⟨max_iter - 1, by omega⟩
  cases k with
  | zero => exact mandel_two_two_one
  | succ j =>
    show mandelGo 2 2 (j + 2) (j + 2) 0 0 0 = 1
    rw [mandelGo]
    norm_num
    rw [mandelGo]
    norm_num

/-- Witness for the amended C4 at `max_iter = 1`. -/
theorem calculate_mandelbrot_two_two_witness :
    calculate_mandelbrot 2 2 1 = 1 :=
  calculate_mandelbrot_two_two 1 (by decide)

/-! ## C5, C6: the zoom operation -/

/-- C5: after `zoom_at x y zoom_factor`, the new center is the image of
`(x, y)` under the mapper applied to the *pre-call* viewport, the new range
is the old range divided by `zoom_factor`, the remaining viewport fields
are untouched, and the triggered re-render runs on exactly the mutated
state with nothing in between (the render outcome returned by `zoom_at` is
literally `renderOp` of the post-mutation state).  (`zoom_factor` "finite"
is vacuous over `ℚ`; the hypothesis `zoom_factor ≠ 0` is the claim's.) -/
theorem zoom_at_state_change (sqrt : ℚ → ℚ) (x y zoom_factor : ℚ)
    (s : RenderState) (_hzf : zoom_factor ≠ 0) :
    (zoom_at sqrt x y zoom_factor s).1.viewport.center_x
        = (map_pixel_to_complex x y s.viewport).1 ∧
    (zoom_at sqrt x y zoom_factor s).1.viewport.center_y
        = (map_pixel_to_complex x y s.viewport).2 ∧
    (zoom_at sqrt x y zoom_factor s).1.viewport.range
        = s.viewport.range / zoom_factor ∧
    (zoom_at sqrt x y zoom_factor s).1.viewport.width = s.viewport.width ∧
    (zoom_at sqrt x y zoom_factor s).1.viewport.height = s.viewport.height ∧
    (zoom_at sqrt x y zoom_factor s).1.viewport.max_iter
        = s.viewport.max_iter ∧
    (zoom_at sqrt x y zoom_factor s).1.ctx = s.ctx ∧
    (zoom_at sqrt x y zoom_factor s).2
        = renderOp sqrt (zoom_at sqrt x y zoom_factor s).1 := by
  exact ⟨rfl, rfl, rfl, rfl, rfl, rfl, rfl, rfl⟩

/-- Witness for C5 at a concrete state and zoom. -/
theorem zoom_at_state_change_witness :
    (zoom_at id 1 2 2 ⟨⟨0, 0, 3, 8, 8, 4⟩, some ()⟩).1.viewport.center_x
        = (map_pixel_to_complex 1 2 ⟨0, 0, 3, 8, 8, 4⟩).1 ∧
    (zoom_at id 1 2 2 ⟨⟨0, 0, 3, 8, 8, 4⟩, some ()⟩).1.viewport.center_y
        = (map_pixel_to_complex 1 2 ⟨0, 0, 3, 8, 8, 4⟩).2 ∧
    (zoom_at id 1 2 2 ⟨⟨0, 0, 3, 8, 8, 4⟩, some ()⟩).1.viewport.range
        = (3 : ℚ) / 2 ∧
    (zoom_at id 1 2 2 ⟨⟨0, 0, 3, 8, 8, 4⟩, some ()⟩).1.viewport.width = 8 ∧
    (zoom_at id 1 2 2 ⟨⟨0, 0, 3, 8, 8, 4⟩, some ()⟩).1.viewport.height = 8 ∧
    (zoom_at id 1 2 2 ⟨⟨0, 0, 3, 8, 8, 4⟩, some ()⟩).1.viewport.max_iter
        = 4 ∧
    (zoom_at id 1 2 2 ⟨⟨0, 0, 3, 8, 8, 4⟩, some ()⟩).1.ctx = some () ∧
    (zoom_at id 1 2 2 ⟨⟨0, 0, 3, 8, 8, 4⟩, some ()⟩).2
        = renderOp id (zoom_at id 1 2 2 ⟨⟨0, 0, 3, 8, 8, 4⟩, some ()⟩).1 :=
  zoom_at_state_change id 1 2 2 ⟨⟨0, 0, 3, 8, 8, 4⟩, some ()⟩ (by norm_num)

/-- C6: zooming by factor `2` at the frame center `(width/2, height/2)`
leaves the center exactly unchanged and exactly halves the range (over `ℚ`
the computation `((w/2)/w - 1/2) = 0` is exact; it is also exact in IEEE
doubles). -/
theorem zoom_at_center_fixed (sqrt : ℚ → ℚ) (s : RenderState)
    (hw : 0 < s.viewport.width) (hh : 0 < s.viewport.height) :
    (zoom_at sqrt ((s.viewport.width : ℚ) / 2) ((s.viewport.height : ℚ) / 2)
        2 s).1.viewport.center_x = s.viewport.center_x ∧
    (zoom_at sqrt ((s.viewport.width : ℚ) / 2) ((s.viewport.height : ℚ) / 2)
        2 s).1.viewport.center_y = s.viewport.center_y ∧
    (zoom_at sqrt ((s.viewport.width : ℚ) / 2) ((s.viewport.height : ℚ) / 2)
        2 s).1.viewport.range = s.viewport.range / 2 := by
  have hw' : (s.viewport.width : ℚ) ≠ 0 := Nat.cast_ne_zero.mpr (by omega)
  have hh' : (s.viewport.height : ℚ) ≠ 0 := Nat.cast_ne_zero.mpr (by omega)
  refine ⟨?_, ?_, rfl⟩
  · show ((s.viewport.width : ℚ) / 2 / s.viewport.width - 1/2)
        * (s.viewport.range * ((s.viewport.width : ℚ) / s.viewport.height))
        + s.viewport.center_x = s.viewport.center_x
    field_simp
    ring_nf
  · show (1/2 - (s.viewport.height : ℚ) / 2 / s.viewport.height)
        * s.viewport.range + s.viewport.center_y = s.viewport.center_y
    field_simp

/-- Witness for C6 on a concrete viewport. -/
theorem zoom_at_center_fixed_witness :
    (zoom_at id ((8 : ℕ) : ℚ) (((12 : ℕ) : ℚ) / 2) 2
        ⟨⟨-1/2, 0, 3, 16, 12, 256⟩, some ()⟩).1.viewport.center_x = -1/2 ∧
    (zoom_at id ((8 : ℕ) : ℚ) (((12 : ℕ) : ℚ) / 2) 2
        ⟨⟨-1/2, 0, 3, 16, 12, 256⟩, some ()⟩).1.viewport.center_y = 0 ∧
    (zoom_at id ((8 : ℕ) : ℚ) (((12 : ℕ) : ℚ) / 2) 2
        ⟨⟨-1/2, 0, 3, 16, 12, 256⟩, some ()⟩).1.viewport.range = 3 / 2 := by
  have h := zoom_at_center_fixed id ⟨⟨-1/2, 0, 3, 16, 12, 256⟩, some ()⟩
    (by norm_num) (by norm_num)
  norm_num at h ⊢
  exact h

/-! ## C7: the mapper at the frame corners -/

/-- C7: on every viewport with positive dimensions, the mapper sends the
top-left frame corner (pixel coordinate `(0, 0)`, the sampling point of the
top-left pixel) to `(center_x - range·aspect/2, center_y + range/2)` and
the bottom-right frame corner (pixel coordinate `(width, height)`) to
`(center_x + range·aspect/2, center_y - range/2)`, where
`aspect = width/height` — exactly over `ℚ`, hence within any epsilon. -/
theorem map_pixel_to_complex_corners (vp : Viewport)
    (hw : 0 < vp.width) (hh : 0 < vp.height) :
    map_pixel_to_complex 0 0 vp
        = (vp.center_x - vp.range * ((vp.width : ℚ) / vp.height) / 2,
           vp.center_y + vp.range / 2) ∧
    map_pixel_to_complex (vp.width : ℚ) (vp.height : ℚ) vp
        = (vp.center_x + vp.range * ((vp.width : ℚ) / vp.height) / 2,
           vp.center_y - vp.range / 2) := by
  have hw' : (vp.width : ℚ) ≠ 0 := Nat.cast_ne_zero.mpr (by omega)
  have hh' : (vp.height : ℚ) ≠ 0 := Nat.cast_ne_zero.mpr (by omega)
  constructor
  · show ((0 / (vp.width : ℚ) - 1/2) * (vp.range * ((vp.width : ℚ) / vp.height))
        + vp.center_x,
        (1/2 - 0 / (vp.height : ℚ)) * vp.range + vp.center_y) = _
    rw [Prod.mk.injEq]
    constructor <;> ring
  · show (((vp.width : ℚ) / vp.width - 1/2)
            * (vp.range * ((vp.width : ℚ) / vp.height)) + vp.center_x,
          (1/2 - (vp.height : ℚ) / vp.height) * vp.range + vp.center_y) = _
    rw [Prod.mk.injEq]
    constructor
    · field_simp
      ring
    · field_simp
      ring

/-- Witness for C7 on a concrete viewport. -/
theorem map_pixel_to_complex_corners_witness :
    map_pixel_to_complex 0 0 ⟨-1/2, 0, 3, 4, 2, 7⟩
        = (-1/2 - 3 * (((4 : ℕ) : ℚ) / ((2 : ℕ) : ℚ)) / 2, 0 + 3 / 2) ∧
    map_pixel_to_complex ((4 : ℕ) : ℚ) ((2 : ℕ) : ℚ) ⟨-1/2, 0, 3, 4, 2, 7⟩
        = (-1/2 + 3 * (((4 : ℕ) : ℚ) / ((2 : ℕ) : ℚ)) / 2, 0 - 3 / 2) :=
  map_pixel_to_complex_corners ⟨-1/2, 0, 3, 4, 2, 7⟩ (by norm_num) (by norm_num)

/-! ## C8, C10: failure before initialization -/

/-- C8: calling the exported `render` with no bound context fails with the
uninitialized-context error.  In the source, `get_state_and_ctx()?` is the
first statement of `render`, before the buffer allocation and the pixel
loops; the model mirrors that order, and the `Except.error` result carries
no buffer — nothing was computed or delivered. -/
theorem render_uninitialized (sqrt : ℚ → ℚ) (s : RenderState)
    (h : s.ctx = none) :
    renderOp sqrt s = Except.error "context not initialized" := by
  simp [renderOp, get_state_and_ctx, h]

/-- Witness for C8 on the default pre-`init` state. -/
theorem render_uninitialized_witness :
    renderOp id ⟨⟨-1/2, 0, 3, 800, 600, 256⟩, none⟩
      = Except.error "context not initialized" :=
  render_uninitialized id ⟨⟨-1/2, 0, 3, 800, 600, 256⟩, none⟩ rfl

/-- C10: `zoom_at` is not atomic with respect to failure: even when no
context is bound (so the subsequent render fails), the viewport mutation —
new center from the mapped point, range divided by `zoom_factor` — is
applied and persists in the returned state, while the render outcome is the
uninitialized-context error. -/
theorem zoom_at_not_atomic (sqrt : ℚ → ℚ) (x y zoom_factor : ℚ)
    (s : RenderState) (h : s.ctx = none) :
    (zoom_at sqrt x y zoom_factor s).1.viewport.center_x
        = (map_pixel_to_complex x y s.viewport).1 ∧
    (zoom_at sqrt x y zoom_factor s).1.viewport.center_y
        = (map_pixel_to_complex x y s.viewport).2 ∧
    (zoom_at sqrt x y zoom_factor s).1.viewport.range
        = s.viewport.range / zoom_factor ∧
    (zoom_at sqrt x y zoom_factor s).2
        = Except.error "context not initialized" := by
  refine ⟨rfl, rfl, rfl, ?_⟩
  show renderOp sqrt _ = _
  simp [renderOp, get_state_and_ctx, h]

/-- Witness for C10 on the default pre-`init` state. -/
theorem zoom_at_not_atomic_witness :
    (zoom_at id 100 100 2 ⟨⟨-1/2, 0, 3, 800, 600, 256⟩, none⟩).1.viewport.center_x
        = (map_pixel_to_complex 100 100 ⟨-1/2, 0, 3, 800, 600, 256⟩).1 ∧
    (zoom_at id 100 100 2 ⟨⟨-1/2, 0, 3, 800, 600, 256⟩, none⟩).1.viewport.center_y
        = (map_pixel_to_complex 100 100 ⟨-1/2, 0, 3, 800, 600, 256⟩).2 ∧
    (zoom_at id 100 100 2 ⟨⟨-1/2, 0, 3, 800, 600, 256⟩, none⟩).1.viewport.range
        = (3 : ℚ) / 2 ∧
    (zoom_at id 100 100 2 ⟨⟨-1/2, 0, 3, 800, 600, 256⟩, none⟩).2
        = Except.error "context not initialized" := by
  have h := zoom_at_not_atomic id 100 100 2 ⟨⟨-1/2, 0, 3, 800, 600, 256⟩, none⟩ rfl
  norm_num at h ⊢
  exact h

/-! ## C9: the colorizer channel polynomials -/

/-- The red polynomial is bounded by `[0, 255]` on `t ∈ [0, 1]`
(its maximum over the interval is `2295/256·255/9 = 242.5…` — concretely
`9·(1-t)·t³` peaks at `t = 3/4` with value `243/256 < 1`). -/
lemma chanR_mem (t : ℚ) (h0 : 0 ≤ t) (h1 : t ≤ 1) :
    0 ≤ chanR t ∧ chanR t ≤ 255 := by
  unfold chanR
  constructor
  · nlinarith [mul_nonneg (mul_nonneg (mul_nonneg (sub_nonneg.mpr h1) h0) h0) h0]
  · nlinarith [sq_nonneg (t - 3/4), mul_nonneg h0 h0,
      mul_nonneg (mul_nonneg h0 h0) h0,
      mul_nonneg (mul_nonneg h0 h0) (sub_nonneg.mpr h1),
      sq_nonneg (t * (t - 3/4)), mul_nonneg (sub_nonneg.mpr h1) h0]

/-- The green polynomial is bounded by `[0, 255]` on `t ∈ [0, 1]`
(`15·(1-t)²·t²` peaks at `t = 1/2` with value `15/16 < 1`). -/
lemma chanG_mem (t : ℚ) (h0 : 0 ≤ t) (h1 : t ≤ 1) :
    0 ≤ chanG t ∧ chanG t ≤ 255 := by
  unfold chanG
  constructor
  · nlinarith [mul_nonneg
      (mul_nonneg (mul_nonneg (sub_nonneg.mpr h1) (sub_nonneg.mpr h1)) h0) h0]
  · nlinarith [sq_nonneg (t - 1/2), mul_nonneg h0 (sub_nonneg.mpr h1),
      sq_nonneg (t * (1 - t)),
      mul_nonneg (mul_nonneg h0 h0) (sub_nonneg.mpr h1)]

/-- The blue polynomial is bounded by `[0, 255]` on `t ∈ [0, 1]`
(`8.5·(1-t)³·t` peaks at `t = 1/4` with value `8.5·27/256 < 1`). -/
lemma chanB_mem (t : ℚ) (h0 : 0 ≤ t) (h1 : t ≤ 1) :
    0 ≤ chanB t ∧ chanB t ≤ 255 := by
  unfold chanB
  constructor
  · nlinarith [mul_nonneg (mul_nonneg
      (mul_nonneg (sub_nonneg.mpr h1) (sub_nonneg.mpr h1)) (sub_nonneg.mpr h1)) h0]
  · nlinarith [sq_nonneg (t - 1/4), mul_nonneg h0 (sub_nonneg.mpr h1),
      sq_nonneg ((1 - t) * (t - 1/4)),
      mul_nonneg (mul_nonneg h0 (sub_nonneg.mpr h1)) (sub_nonneg.mpr h1)]

/-- On values in `[0, 255]` the saturating `as u8` cast reduces to plain
truncation toward zero (= `Int.floor` on nonnegative input): the clamp arm
is never exercised. -/
lemma ratToU8_eq_floor (c : ℚ) (_h0 : 0 ≤ c) (h255 : c ≤ 255) :
    ratToU8 c = Int.toNat ⌊c⌋ := by
  have hfl : (⌊c⌋ : ℚ) ≤ 255 := le_trans (Int.floor_le c) h255
  have h2 : ⌊c⌋ ≤ 255 := by exact_mod_cast hfl
  unfold ratToU8
  omega

/-- C9: for every escaped pixel (`iter < max_iter`) and every value `t` the
floating-point `powf(iter/max_iter, 0.5)` may return (any `t ∈ [0, 1]`; the
exact square root of `iter/max_iter < 1` and its correctly rounded double
both lie there), each of the three channel polynomials lies in `[0, 255]`,
the 8-bit conversion is truncation toward zero (`Int.floor` on these
nonnegative values, never rounding), the saturating clamp of `as u8` is
never exercised (`ratToU8` coincides with the unclamped truncation), and
`get_color` returns exactly those three truncated channels. -/
theorem get_color_channels (sqrt : ℚ → ℚ) (iter max_iter : ℕ)
    (hlt : iter < max_iter) (t : ℚ)
    (ht : sqrt ((iter : ℚ) / (max_iter : ℚ)) = t)
    (ht0 : 0 ≤ t) (ht1 : t ≤ 1) :
    (0 ≤ chanR t ∧ chanR t ≤ 255 ∧ ratToU8 (chanR t) = Int.toNat ⌊chanR t⌋) ∧
    (0 ≤ chanG t ∧ chanG t ≤ 255 ∧ ratToU8 (chanG t) = Int.toNat ⌊chanG t⌋) ∧
    (0 ≤ chanB t ∧ chanB t ≤ 255 ∧ ratToU8 (chanB t) = Int.toNat ⌊chanB t⌋) ∧
    get_color sqrt iter max_iter
      = (Int.toNat ⌊chanR t⌋, Int.toNat ⌊chanG t⌋, Int.toNat ⌊chanB t⌋) := by
  obtain ⟨hr0, hr1⟩ := chanR_mem t ht0 ht1
  obtain ⟨hg0, hg1⟩ := chanG_mem t ht0 ht1
  obtain ⟨hb0, hb1⟩ := chanB_mem t ht0 ht1
  have hne : iter ≠ max_iter := Nat.ne_of_lt hlt
  refine ⟨⟨hr0, hr1, ratToU8_eq_floor _ hr0 hr1⟩,
          ⟨hg0, hg1, ratToU8_eq_floor _ hg0 hg1⟩,
          ⟨hb0, hb1, ratToU8_eq_floor _ hb0 hb1⟩, ?_⟩
  simp only [get_color, hne, if_false, ht]
  rw [ratToU8_eq_floor _ hr0 hr1, ratToU8_eq_floor _ hg0 hg1,
    ratToU8_eq_floor _ hb0 hb1]

/-- Witness for C9 at `iter = 1`, `max_iter = 2`, with a square-root model
returning `1/2`. -/
theorem get_color_channels_witness :
    (0 ≤ chanR (1/2) ∧ chanR (1/2) ≤ 255 ∧
        ratToU8 (chanR (1/2)) = Int.toNat ⌊chanR (1/2)⌋) ∧
    (0 ≤ chanG (1/2) ∧ chanG (1/2) ≤ 255 ∧
        ratToU8 (chanG (1/2)) = Int.toNat ⌊chanG (1/2)⌋) ∧
    (0 ≤ chanB (1/2) ∧ chanB (1/2) ≤ 255 ∧
        ratToU8 (chanB (1/2)) = Int.toNat ⌊chanB (1/2)⌋) ∧
    get_color (fun _ => 1/2) 1 2
      = (Int.toNat ⌊chanR (1/2)⌋, Int.toNat ⌊chanG (1/2)⌋,
         Int.toNat ⌊chanB (1/2)⌋) :=
  get_color_channels (fun _ => 1/2) 1 2 (by norm_num) (1/2) rfl
    (by norm_num) (by norm_num)

/-! ## C1: the frame renderer -/

/-- The pixel pipeline of the renderer's inner loop: map the pixel index
(the integer indices `px`, `py` cast to the coordinate field — the
top-left corner of the pixel cell), evaluate, colorize. -/
def pixelRGB (sqrt : ℚ → ℚ) (vp : Viewport) (px py : ℕ) : ℕ × ℕ × ℕ :=
  get_color sqrt
    (calculate_mandelbrot (map_pixel_to_complex (px : ℚ) (py : ℚ) vp).1
      (map_pixel_to_complex (px : ℚ) (py : ℚ) vp).2 vp.max_iter)
    vp.max_iter

/-- One pixel write leaves the buffer length unchanged. -/
lemma length_writePixel (sqrt : ℚ → ℚ) (vp : Viewport) (data : List ℕ)
    (px py : ℕ) : (writePixel sqrt vp data px py).length = data.length := by
  simp [writePixel]

/-- The whole pixel loop leaves the buffer length unchanged. -/
lemma length_foldl_writePixel (sqrt : ℚ → ℚ) (vp : Viewport) :
    ∀ (l : List (ℕ × ℕ)) (data : List ℕ),
      (l.foldl (fun d p => writePixel sqrt vp d p.1 p.2) data).length
        = data.length := by
  intro l
  induction l with
  | nil => intro data; rfl
  | cons q l ih =>
    intro data
    rw [List.foldl_cons, ih, length_writePixel]

/-- Distinct pixels own disjoint groups of four byte offsets (this is what
makes "each pixel written exactly once" meaningful: no other pixel's write
can alias into this pixel's bytes). -/
lemma pixelOffset_ne (w px py qx qy k k' : ℕ) (hpx : px < w) (hqx : qx < w)
    (hne : (px, py) ≠ (qx, qy)) (hk : k < 4) (hk' : k' < 4) :
    pixelOffset w px py + k ≠ pixelOffset w qx qy + k' := by
  intro heq
  unfold pixelOffset at heq
  set A := py * w + px with hA
  set B := qy * w + qx with hB
  have hAB : A = B := by omega
  have hx : px = qx := by
    have hmod : A % w = B % w := by rw [hAB]
    rw [hA, hB, Nat.mul_comm py w, Nat.mul_comm qy w, Nat.mul_add_mod,
      Nat.mul_add_mod, Nat.mod_eq_of_lt hpx, Nat.mod_eq_of_lt hqx] at hmod
    exact hmod
  have hy : py = qy := by
    rw [hA, hB, hx] at hAB
    have := Nat.add_right_cancel hAB
    exact Nat.eq_of_mul_eq_mul_right (by omega) this
  exact hne (by rw [hx, hy])

/-- The four bytes of a pixel with in-range column index lie inside the
`width * height * 4` buffer. -/
lemma pixelOffset_lt (w h px py : ℕ) (hpx : px < w) (hpy : py < h) :
    pixelOffset w px py + 3 < w * h * 4 := by
  unfold pixelOffset
  have h1 : py * w + px < h * w := by
    calc py * w + px < (py + 1) * w := by rw [Nat.succ_mul]; omega
    _ ≤ h * w := Nat.mul_le_mul_right w (by omega)
  have h2 : (py * w + px + 1) * 4 ≤ h * w * 4 := Nat.mul_le_mul_right 4 (by omega)
  have h3 : w * h * 4 = h * w * 4 := by ring
  omega

/-- A write whose four target offsets all differ from the queried offset
does not change the byte there. -/
lemma writePixel_getElem?_of_ne (sqrt : ℚ → ℚ) (vp : Viewport)
    (data : List ℕ) (qx qy j : ℕ)
    (h0 : j ≠ pixelOffset vp.width qx qy)
    (h1 : j ≠ pixelOffset vp.width qx qy + 1)
    (h2 : j ≠ pixelOffset vp.width qx qy + 2)
    (h3 : j ≠ pixelOffset vp.width qx qy + 3) :
    (writePixel sqrt vp data qx qy)[j]? = data[j]? := by
  simp only [writePixel]
  rw [List.getElem?_set_ne (Ne.symm h3), List.getElem?_set_ne (Ne.symm h2),
    List.getElem?_set_ne (Ne.symm h1), List.getElem?_set_ne (Ne.symm h0)]

/-- Writing a *different* pixel does not change any of this pixel's four
bytes. -/
lemma writePixel_getElem?_ne (sqrt : ℚ → ℚ) (vp : Viewport) (data : List ℕ)
    (px py qx qy k : ℕ) (hpx : px < vp.width) (hqx : qx < vp.width)
    (hne : (px, py) ≠ (qx, qy)) (hk : k < 4) :
    (writePixel sqrt vp data qx qy)[pixelOffset vp.width px py + k]?
      = data[pixelOffset vp.width px py + k]? := by
  refine writePixel_getElem?_of_ne sqrt vp data qx qy _ ?_ ?_ ?_ ?_
  · simpa using pixelOffset_ne vp.width px py qx qy k 0 hpx hqx hne hk (by omega)
  · exact pixelOffset_ne vp.width px py qx qy k 1 hpx hqx hne hk (by omega)
  · exact pixelOffset_ne vp.width px py qx qy k 2 hpx hqx hne hk (by omega)
  · exact pixelOffset_ne vp.width px py qx qy k 3 hpx hqx hne hk (by omega)

/-- Folding the pixel writes over a list that does not contain this pixel
leaves its four bytes untouched. -/
lemma foldl_writePixel_getElem?_not_mem (sqrt : ℚ → ℚ) (vp : Viewport)
    (px py k : ℕ) (hpx : px < vp.width) (hk : k < 4) :
    ∀ (l : List (ℕ × ℕ)) (data : List ℕ),
      (∀ q ∈ l, q.1 < vp.width) → (px, py) ∉ l →
      (l.foldl (fun d p => writePixel sqrt vp d p.1 p.2)
          data)[pixelOffset vp.width px py + k]?
        = data[pixelOffset vp.width px py + k]? := by
  intro l
  induction l with
  | nil => intro data _ _; rfl
  | cons q l ih =>
    intro data hl hnm
    rw [List.foldl_cons,
      ih _ (fun r hr => hl r (List.mem_cons_of_mem _ hr))
        (fun h => hnm (List.mem_cons_of_mem _ h))]
    exact writePixel_getElem?_ne sqrt vp data px py q.1 q.2 k hpx
      (hl q (List.mem_cons_self q l))
      (fun h => hnm (h ▸ List.mem_cons_self q l)) hk

/-- A single `writePixel` stores exactly `r`, `g`, `b`, `255` at the four
offsets of its pixel. -/
lemma writePixel_getElem?_self (sqrt : ℚ → ℚ) (vp : Viewport)
    (data : List ℕ) (px py : ℕ)
    (hlen : pixelOffset vp.width px py + 3 < data.length) :
    (writePixel sqrt vp data px py)[pixelOffset vp.width px py]?
        = some (pixelRGB sqrt vp px py).1 ∧
    (writePixel sqrt vp data px py)[pixelOffset vp.width px py + 1]?
        = some (pixelRGB sqrt vp px py).2.1 ∧
    (writePixel sqrt vp data px py)[pixelOffset vp.width px py + 2]?
        = some (pixelRGB sqrt vp px py).2.2 ∧
    (writePixel sqrt vp data px py)[pixelOffset vp.width px py + 3]?
        = some 255 := by
  simp only [writePixel, pixelRGB]
  refine ⟨?_, ?_, ?_, ?_⟩
  · rw [List.getElem?_set_ne (by omega), List.getElem?_set_ne (by omega),
      List.getElem?_set_ne (by omega)]
    exact List.getElem?_set_eq_of_lt _ (by omega)
  · rw [List.getElem?_set_ne (by omega), List.getElem?_set_ne (by omega)]
    exact List.getElem?_set_eq_of_lt _ (by simp only [List.length_set]; omega)
  · rw [List.getElem?_set_ne (by omega)]
    exact List.getElem?_set_eq_of_lt _ (by simp only [List.length_set]; omega)
  · exact List.getElem?_set_eq_of_lt _ (by simp only [List.length_set]; omega)

/-- Folding the pixel writes over any list of in-range pixels containing
this pixel ends with its four bytes holding `r`, `g`, `b`, `255` (the last
— in fact only — write wins, and no other pixel's write aliases). -/
lemma foldl_writePixel_getElem?_mem (sqrt : ℚ → ℚ) (vp : Viewport)
    (px py : ℕ) (hpx : px < vp.width) (hpy : py < vp.height) :
    ∀ (l : List (ℕ × ℕ)) (data : List ℕ),
      data.length = vp.width * vp.height * 4 →
      (∀ q ∈ l, q.1 < vp.width) → (px, py) ∈ l →
      ((l.foldl (fun d p => writePixel sqrt vp d p.1 p.2)
          data)[pixelOffset vp.width px py]?
          = some (pixelRGB sqrt vp px py).1 ∧
       (l.foldl (fun d p => writePixel sqrt vp d p.1 p.2)
          data)[pixelOffset vp.width px py + 1]?
          = some (pixelRGB sqrt vp px py).2.1 ∧
       (l.foldl (fun d p => writePixel sqrt vp d p.1 p.2)
          data)[pixelOffset vp.width px py + 2]?
          = some (pixelRGB sqrt vp px py).2.2 ∧
       (l.foldl (fun d p => writePixel sqrt vp d p.1 p.2)
          data)[pixelOffset vp.width px py + 3]?
          = some 255) := by
  intro l
  induction l with
  | nil => intro data _ _ hm; cases hm
  | cons q l ih =>
    intro data hlen hl hm
    rw [List.foldl_cons]
    by_cases hql : (px, py) ∈ l
    · exact ih _ (by rw [length_writePixel]; exact hlen)
        (fun r hr => hl r (List.mem_cons_of_mem _ hr)) hql
    · have hq : q = (px, py) := by
        rcases List.mem_cons.mp hm with h | h
        · exact h.symm
        · exact absurd h hql
      subst hq
      have hlen' : pixelOffset vp.width px py + 3
          < (writePixel sqrt vp data px py).length := by
        rw [length_writePixel, hlen]
        exact pixelOffset_lt vp.width vp.height px py hpx hpy
      obtain ⟨e0, e1, e2, e3⟩ := writePixel_getElem?_self sqrt vp data px py
        (by rw [hlen]; exact pixelOffset_lt vp.width vp.height px py hpx hpy)
      have hother : ∀ r ∈ l, r.1 < vp.width :=
        fun r hr => hl r (List.mem_cons_of_mem _ hr)
      refine ⟨?_, ?_, ?_, ?_⟩
      · have := foldl_writePixel_getElem?_not_mem sqrt vp px py 0 hpx
          (by omega) l (writePixel sqrt vp data px py) hother hql
        simpa using this.trans (by simpa using e0)
      · rw [foldl_writePixel_getElem?_not_mem sqrt vp px py 1 hpx (by omega)
          l _ hother hql]
        exact e1
      · rw [foldl_writePixel_getElem?_not_mem sqrt vp px py 2 hpx (by omega)
          l _ hother hql]
        exact e2
      · rw [foldl_writePixel_getElem?_not_mem sqrt vp px py 3 hpx (by omega)
          l _ hother hql]
        exact e3

/-- Membership in the visited-pixel list is exactly being in frame. -/
lemma mem_pixelList (w h px py : ℕ) :
    (px, py) ∈ pixelList w h ↔ px < w ∧ py < h := by
  constructor
  · intro hm
    simp only [pixelList, List.mem_flatMap, List.mem_map, List.mem_range] at hm
    obtain ⟨a, ha, b, hb, heq⟩ := hm
    obtain ⟨h1, h2⟩ := Prod.mk.injEq .. ▸ heq
    constructor <;> omega
  · rintro ⟨h1, h2⟩
    simp only [pixelList, List.mem_flatMap, List.mem_map, List.mem_range]
    exact ⟨py, h2, px, h1, rfl⟩

/-- The nested loops visit no pixel twice. -/
lemma pixelList_nodup (w h : ℕ) : (pixelList w h).Nodup := by
  rw [pixelList, List.nodup_flatMap]
  constructor
  · intro py _
    exact (List.nodup_range w).map (fun a b hab => by simpa using hab)
  · refine (List.pairwise_lt_range h).imp ?_
    intro a b hab
    rw [Function.onFun, List.disjoint_left]
    rintro ⟨x, y⟩ hx hy
    simp only [List.mem_map, List.mem_range] at hx hy
    obtain ⟨_, _, h1⟩ := hx
    obtain ⟨_, _, h2⟩ := hy
    have ha : y = a := (Prod.mk.injEq .. ▸ h1).2.symm
    have hb : y = b := (Prod.mk.injEq .. ▸ h2).2.symm
    omega

/-- A duplicate-free list counts each member exactly once (stated for the
`BEq` instance `List.count` uses on pixel pairs). -/
lemma count_eq_one_of_nodup_mem (l : List (ℕ × ℕ)) (a : ℕ × ℕ)
    (d : l.Nodup) (h : a ∈ l) : l.count a = 1 := by
  induction l with
  | nil => cases h
  | cons b l ih =>
    rw [List.count_cons]
    rcases List.mem_cons.mp h with rfl | hmem
    · have hnot : a ∉ l := (List.nodup_cons.mp d).1
      rw [List.count_eq_zero.mpr hnot]
      simp
    · have hne : b ≠ a := by
        rintro rfl
        exact (List.nodup_cons.mp d).1 hmem
      rw [ih (List.nodup_cons.mp d).2 hmem]
      simp [hne]

/-- Each in-frame pixel is visited (hence written) exactly once by the
nested loops. -/
lemma count_pixelList (w h px py : ℕ) (hpx : px < w) (hpy : py < h) :
    (pixelList w h).count (px, py) = 1 :=
  count_eq_one_of_nodup_mem _ _ (pixelList_nodup w h)
    ((mem_pixelList w h px py).mpr ⟨hpx, hpy⟩)

/-- C1: for every viewport with positive dimensions, `render` produces a
buffer of exactly `width * height * 4` bytes; each pixel is visited (and
written) exactly once by the loop; and for every in-frame pixel
`(px, py)`, the four bytes at offset `(py*width + px)*4` are
`(r, g, b, 255)` with `(r, g, b) = get_color (calculate_mandelbrot
(map_pixel_to_complex px py vp)) max_iter` (`pixelRGB` is by definition
that composition), the mapper being sampled at the integer pixel indices
cast to coordinates — the top-left corner of each pixel cell. -/
theorem render_frame (sqrt : ℚ → ℚ) (vp : Viewport)
    (_hw : 0 < vp.width) (_hh : 0 < vp.height) :
    (render sqrt vp).length = vp.width * vp.height * 4 ∧
    ∀ px py, px < vp.width → py < vp.height →
      (pixelList vp.width vp.height).count (px, py) = 1 ∧
      (render sqrt vp)[pixelOffset vp.width px py]?
        = some (pixelRGB sqrt vp px py).1 ∧
      (render sqrt vp)[pixelOffset vp.width px py + 1]?
        = some (pixelRGB sqrt vp px py).2.1 ∧
      (render sqrt vp)[pixelOffset vp.width px py + 2]?
        = some (pixelRGB sqrt vp px py).2.2 ∧
      (render sqrt vp)[pixelOffset vp.width px py + 3]? = some 255 := by
  constructor
  · rw [render, length_foldl_writePixel, List.length_replicate]
  · intro px py hpx hpy
    refine ⟨count_pixelList _ _ _ _ hpx hpy, ?_⟩
    exact foldl_writePixel_getElem?_mem sqrt vp px py hpx hpy
      (pixelList vp.width vp.height)
      (List.replicate (vp.width * vp.height * 4) 0)
      (List.length_replicate _ _)
      (fun q hq => ((mem_pixelList _ _ q.1 q.2).mp (by simpa using hq)).1)
      ((mem_pixelList _ _ px py).mpr ⟨hpx, hpy⟩)

/-- Witness for C1 on a 1×1 frame with iteration budget 1 and the identity
in place of the square root. -/
theorem render_frame_witness :
    (render id ⟨0, 0, 3, 1, 1, 1⟩).length = 1 * 1 * 4 ∧
    ∀ px py, px < 1 → py < 1 →
      (pixelList 1 1).count (px, py) = 1 ∧
      (render id ⟨0, 0, 3, 1, 1, 1⟩)[pixelOffset 1 px py]?
        = some (pixelRGB id ⟨0, 0, 3, 1, 1, 1⟩ px py).1 ∧
      (render id ⟨0, 0, 3, 1, 1, 1⟩)[pixelOffset 1 px py + 1]?
        = some (pixelRGB id ⟨0, 0, 3, 1, 1, 1⟩ px py).2.1 ∧
      (render id ⟨0, 0, 3, 1, 1, 1⟩)[pixelOffset 1 px py + 2]?
        = some (pixelRGB id ⟨0, 0, 3, 1, 1, 1⟩ px py).2.2 ∧
      (render id ⟨0, 0, 3, 1, 1, 1⟩)[pixelOffset 1 px py + 3]? = some 255 :=
  render_frame id ⟨0, 0, 3, 1, 1, 1⟩ (by decide) (by decide)
